import Mathlib

/-!
Verification of the Configuration Extraction & Caching Engine
(internal/parser: nvim.go, tmux.go, cache.go of the cliq repository).

The Go code works by textual pattern matching (Go `regexp`, package
`strings`) over configuration file contents.  We embed the relevant
functions shallowly: strings are `List Char`, every regular expression of
the source is hand-compiled to an executable scanner with the same
leftmost-first (Perl-order) match semantics Go's regexp package
guarantees, file systems are explicit read functions, and `time.Time`
values are integers (seconds; the Go zero time is the integer 0).
Scanners take an explicit fuel argument (always instantiated with the
length of the scanned text, which is sufficient because every match
consumes at least one character); this keeps every definition executable
by kernel reduction.
-/

/-- Character class of Go regexp `\s` (RE2 Perl class: tab, newline,
form feed, carriage return, space). -/
def isWsRe (c : Char) : Bool :=
  c = ' ' || c = '\t' || c = '\n' || c = '\x0c' || c = '\r'

/-- Whitespace as used by Go `strings.TrimSpace` / `unicode.IsSpace`
(ASCII part: the `\s` class plus vertical tab). -/
def isSpaceGo (c : Char) : Bool :=
  isWsRe c || c = '\x0b'

/-- Character class `["']` used by the quote-delimiter positions of the
source's regular expressions. -/
def isQuote (c : Char) : Bool :=
  c = '"' || c = Char.ofNat 39

/-- Character class `[nvixsotc]` of the keymap-mode positions. -/
def isModeChar (c : Char) : Bool :=
  c = 'n' || c = 'v' || c = 'i' || c = 'x' || c = 's' || c = 'o' || c = 't' || c = 'c'

/-- Match a literal: `expectStr lit s` returns the remainder of `s` after
the prefix `lit`, or `none` when `lit` is not a prefix of `s`. -/
def expectStr : List Char → List Char → Option (List Char)
  | [], s => some s
  | _ :: _, [] => none
  | l :: ls, c :: cs => if c = l then expectStr ls cs else none

/-- Match a single expected character. -/
def expectChar (x : Char) : List Char → Option (List Char)
  | [] => none
  | c :: cs => if c = x then some cs else none

/-- Greedy `\s*` of the source's regular expressions. -/
def skipWsRe (s : List Char) : List Char :=
  s.dropWhile isWsRe

/-- Greedy `\s+`: at least one regexp-whitespace character. -/
def ws1 : List Char → Option (List Char)
  | [] => none
  | c :: cs => if isWsRe c then some (skipWsRe cs) else none

/-- Decide whether `pat` is a prefix of `s` (Go `strings.HasPrefix`). -/
def isPfx : List Char → List Char → Bool
  | [], _ => true
  | _ :: _, [] => false
  | a :: as, b :: bs => a = b && isPfx as bs

/-- One position of the leftmost-match search: report a match at the
current position or hand the tail to the continuation. -/
def scanFirstStep {A : Type} (attempt : List Char → Option A)
    (next : List Char → Option A) (s : List Char) : Option A :=
  match attempt s with
  | some a => some a
  | none =>
    match s with
    | [] => none
    | _ :: rest => next rest

/-- Leftmost-match search: try `attempt` at every position from the left,
with explicit fuel (fuel `s.length + 1` always suffices). Models Go
`regexp.FindStringSubmatch` for a hand-compiled `attempt`. -/
def scanFirst {A : Type} (attempt : List Char → Option A) : Nat → List Char → Option A
  | 0, _ => none
  | fuel + 1, s => scanFirstStep attempt (scanFirst attempt fuel) s

/-- One position of the all-matches scan: emit a match and resume after
it, or move one character right. -/
def scanMatchesStep {A : Type} (attempt : List Char → Option (A × List Char))
    (next : List Char → List A) (s : List Char) : List A :=
  match attempt s with
  | some (a, rest) => a :: next rest
  | none =>
    match s with
    | [] => []
    | _ :: rest => next rest

/-- All non-overlapping leftmost matches, resuming after each match.
Models Go `regexp.FindAllStringSubmatch` for a hand-compiled `attempt`
that returns the submatch data together with the text after the match. -/
def scanMatches {A : Type} (attempt : List Char → Option (A × List Char)) :
    Nat → List Char → List A
  | 0, _ => []
  | fuel + 1, s => scanMatchesStep attempt (scanMatches attempt fuel) s

/-- One position of the match-deleting scan. -/
def scanStripStep (attempt : List Char → Option (List Char))
    (next : List Char → List Char) (s : List Char) : List Char :=
  match attempt s with
  | some rest => next rest
  | none =>
    match s with
    | [] => []
    | c :: rest => c :: next rest

/-- Delete every non-overlapping leftmost match (Go
`regexp.ReplaceAllString` with the empty replacement): `attempt` returns
the text after the match at the current position. -/
def scanStrip (attempt : List Char → Option (List Char)) : Nat → List Char → List Char
  | 0, s => s
  | fuel + 1, s => scanStripStep attempt (scanStrip attempt fuel) s

/-- Go `strings.Contains`. -/
def containsSub (pat s : List Char) : Bool :=
  (scanFirst (fun t => if isPfx pat t then some () else none) (s.length + 1) s).isSome

/-- Go `strings.Replace(s, old, new, 1)`: replace the first occurrence. -/
def replaceFirst (old new : List Char) : Nat → List Char → List Char
  | 0, s => s
  | fuel + 1, s =>
    match expectStr old s with
    | some rest => new ++ rest
    | none =>
      match s with
      | [] => []
      | c :: rest => c :: replaceFirst old new fuel rest

/-- Go `strings.Replace(s, old, new, -1)`: replace every occurrence,
resuming after the inserted replacement. -/
def replaceAllOcc (old new : List Char) : Nat → List Char → List Char
  | 0, s => s
  | fuel + 1, s =>
    match expectStr old s with
    | some rest => new ++ replaceAllOcc old new fuel rest
    | none =>
      match s with
      | [] => []
      | c :: rest => c :: replaceAllOcc old new fuel rest

/-- Go `strings.TrimPrefix`. -/
def trimPfx (pat s : List Char) : List Char :=
  match expectStr pat s with
  | some rest => rest
  | none => s

/-- Go `strings.TrimSpace` (ASCII whitespace). -/
def trimSpace (s : List Char) : List Char :=
  ((s.dropWhile isSpaceGo).reverse.dropWhile isSpaceGo).reverse

/-- Go `strings.Trim(s, cutset)` for a character predicate. -/
def trimBoth (p : Char → Bool) (s : List Char) : List Char :=
  ((s.dropWhile p).reverse.dropWhile p).reverse

/-- Go `strings.SplitN(s, " ", 2)` specialised to a single separator
character: at most two fields, the second being the whole remainder. -/
def splitN2 (sep : Char) (s : List Char) : List (List Char) :=
  let a := s.takeWhile (fun c => !(c = sep))
  match s.dropWhile (fun c => !(c = sep)) with
  | [] => [a]
  | _ :: rest => [a, rest]

/-- Go `strings.Split(s, sep)` for a single separator character. -/
def splitOnChar (sep : Char) : List Char → List (List Char)
  | [] => [[]]
  | c :: rest =>
    let r := splitOnChar sep rest
    if c = sep then [] :: r
    else
      match r with
      | h :: t => (c :: h) :: t
      | [] => [[c]]

/-- ASCII lowercasing of a list of characters (Go `strings.ToLower`on the
ASCII command texts involved here). -/
def lowerL (s : List Char) : List Char :=
  s.map Char.toLower

/-- Association-list map with Go map-assignment semantics: `setK m k v`
stores `v` under `k`, overwriting any previous binding of `k`. -/
def setK (m : List (String × String)) (k v : String) : List (String × String) :=
  m.filter (fun p => !(p.1 = k)) ++ [(k, v)]

/-! ## Tmux extractor (internal/parser/tmux.go) -/

/-- TmuxKeymap represents a tmux key binding (struct `TmuxKeymap`). -/
structure TmuxKeymap where
  Key : String
  Command : String
  Description : String
  Table : String
deriving DecidableEq, Repr

/-- TmuxConfig represents parsed tmux configuration (struct `TmuxConfig`;
the source field `Prefix` is called `Pfx` here). -/
structure TmuxConfig where
  Pfx : String
  Keymaps : List TmuxKeymap
  ConfigPath : String
  Options : List (String × String)
deriving DecidableEq, Repr

/-- Entries of the `descriptions` map literal of `describeCommand`, in
source order.  Go iterates this map with `range`, whose order is
unspecified; the extractor model therefore takes the iteration order as
an explicit parameter that must be a permutation of this list. -/
def descTable : List (String × String) :=
  [("split-window -h", "Split pane horizontally"),
   ("split-window -v", "Split pane vertically"),
   ("split-window", "Split pane"),
   ("new-window", "Create new window"),
   ("kill-pane", "Close current pane"),
   ("kill-window", "Close current window"),
   ("select-pane -L", "Select pane to the left"),
   ("select-pane -R", "Select pane to the right"),
   ("select-pane -U", "Select pane above"),
   ("select-pane -D", "Select pane below"),
   ("resize-pane", "Resize pane"),
   ("next-window", "Go to next window"),
   ("previous-window", "Go to previous window"),
   ("last-window", "Go to last window"),
   ("copy-mode", "Enter copy mode"),
   ("paste-buffer", "Paste from buffer"),
   ("source-file", "Reload config"),
   ("command-prompt", "Open command prompt"),
   ("display-message", "Display message"),
   ("clock-mode", "Show clock"),
   ("choose-tree", "Choose session/window"),
   ("choose-session", "Choose session"),
   ("choose-window", "Choose window"),
   ("detach-client", "Detach from session"),
   ("rename-window", "Rename current window"),
   ("rename-session", "Rename current session"),
   ("swap-pane", "Swap panes"),
   ("rotate-window", "Rotate panes"),
   ("break-pane", "Break pane into window"),
   ("join-pane", "Join pane to window"),
   ("send-keys", "Send keys to pane"),
   ("send-prefix", "Send prefix key"),
   ("set-option", "Set option"),
   ("show-options", "Show options"),
   ("list-keys", "List key bindings"),
   ("list-sessions", "List sessions"),
   ("list-windows", "List windows"),
   ("list-panes", "List panes")]

/-- First entry of the iteration order whose key is a string prefix of
the lowercased command (the `range` loop with `strings.HasPrefix`). -/
def firstMatchDesc : List (String × String) → List Char → Option String
  | [], _ => none
  | (k, d) :: rest, cmd => if isPfx k.data cmd then some d else firstMatchDesc rest cmd

/-- Function `describeCommand`: lowercase the command, try the map
entries in the given iteration order, then the substring fallbacks. -/
def describeCommand (order : List (String × String)) (cmd : List Char) : String :=
  let c := lowerL cmd
  match firstMatchDesc order c with
  | some d => d
  | none =>
    if containsSub "split".data c then "Split pane"
    else if containsSub "select-pane".data c then "Select pane"
    else if containsSub "resize".data c then "Resize pane"
    else if containsSub "window".data c then "Window operation"
    else if containsSub "pane".data c then "Pane operation"
    else ""

/-- Scanner for the pattern `(?:set-option|set)\s+(?:-g\s+)?PFXLIT\s+(\S+)`
at the current position (`extractPrefix`'s two patterns differ only in
the literal `prefix` versus `prefix2`, passed as `pfxLit`). -/
def pfxPatAt (pfxLit : List Char) (s : List Char) : Option (List Char) :=
  (match expectStr "set-option".data s with
   | some r => some r
   | none => expectStr "set".data s).bind fun r1 =>
  (ws1 r1).bind fun r2 =>
  (match (expectStr "-g".data r2).bind ws1 with
   | some r3 => expectStr pfxLit r3
   | none => expectStr pfxLit r2).bind fun r4 =>
  (ws1 r4).bind fun r5 =>
  match r5.takeWhile (fun c => !isWsRe c) with
  | [] => none
  | v => some v

/-- Method `extractPrefix` (named `extractPfx` here): first pattern that
matches anywhere in the line wins and overwrites the stored prefix. -/
def extractPfx (cfg : TmuxConfig) (line : List Char) : TmuxConfig :=
  match scanFirst (pfxPatAt "prefix".data) (line.length + 1) line with
  | some v => { cfg with Pfx := ⟨v⟩ }
  | none =>
    match scanFirst (pfxPatAt "prefix2".data) (line.length + 1) line with
    | some v => { cfg with Pfx := ⟨v⟩ }
    | none => cfg

/-- Anchored pattern `^bind(?:-key)?\s+` deleted from the line start
(leftmost-first: the optional `-key` is tried first). -/
def stripBindVerb (s : List Char) : List Char :=
  match (expectStr "bind-key".data s).bind ws1 with
  | some r => r
  | none =>
    match (expectStr "bind".data s).bind ws1 with
    | some r => r
    | none => s

/-- Scanner for `-T\s+(\S+)` at the current position, returning the
captured table name and the remainder after the whole match. -/
def tablePatAt (s : List Char) : Option (List Char × List Char) :=
  (expectStr "-T".data s).bind fun r1 =>
  (ws1 r1).bind fun r2 =>
  match r2.takeWhile (fun c => !isWsRe c) with
  | [] => none
  | v => some (v, r2.dropWhile (fun c => !isWsRe c))

/-- Scanner for `-[cnt]\s+` at the current position (single class
character), returning the remainder after the match. -/
def cntFlagAt (s : List Char) : Option (List Char) :=
  match s with
  | '-' :: c :: rest =>
    if c = 'c' || c = 'n' || c = 't' then
      match rest with
      | d :: ds => if isWsRe d then some (skipWsRe ds) else none
      | [] => none
    else none
  | _ => none

/-- Method `extractBinding`: strip the bind verb, the `-T table`, `-n`,
`-r` and other single-letter flags, then split the rest into key and
command and derive a description. -/
def extractBinding (order : List (String × String)) (cfg : TmuxConfig)
    (line0 : List Char) : TmuxConfig :=
  let line1 := stripBindVerb line0
  let tbl0 : String := "prefix"
  let found := scanFirst tablePatAt (line1.length + 1) line1
  let tbl1 := match found with
    | some (v, _) => (⟨v⟩ : String)
    | none => tbl0
  let line2 := match found with
    | some _ => scanStrip (fun t => (tablePatAt t).map (·.2)) (line1.length + 1) line1
    | none => line1
  let hasN := containsSub " -n ".data line2 || isPfx "-n ".data line2
  let tbl2 := if hasN then "root" else tbl1
  let line3 :=
    if hasN then trimPfx "-n ".data (replaceFirst " -n ".data " ".data (line2.length + 1) line2)
    else line2
  let line4 := trimPfx "-r ".data (replaceAllOcc " -r ".data " ".data (line3.length + 1) line3)
  let line5 := scanStrip cntFlagAt (line4.length + 1) line4
  match splitN2 ' ' (trimSpace line5) with
  | [k, rest] =>
    let cmd := trimSpace rest
    let km : TmuxKeymap :=
      { Key := ⟨k⟩, Command := ⟨cmd⟩,
        Description := describeCommand order cmd, Table := tbl2 }
    { cfg with Keymaps := cfg.Keymaps ++ [km] }
  | _ => cfg

/-- Scanner for the anchored option-verb pattern
`^(?:set-option|set-window-option|set|setw)\s+` (alternatives in source
order, leftmost-first). -/
def stripOptVerb (s : List Char) : List Char :=
  match (expectStr "set-option".data s).bind ws1 with
  | some r => r
  | none =>
    match (expectStr "set-window-option".data s).bind ws1 with
    | some r => r
    | none =>
      match (expectStr "set".data s).bind ws1 with
      | some r => r
      | none =>
        match (expectStr "setw".data s).bind ws1 with
        | some r => r
        | none => s

/-- Scanner for `-[gswu]+\s+` at the current position. -/
def gswuFlagAt (s : List Char) : Option (List Char) :=
  match s with
  | '-' :: rest =>
    let p : Char → Bool := fun c => c = 'g' || c = 's' || c = 'w' || c = 'u'
    match rest.takeWhile p with
    | [] => none
    | _ =>
      match rest.dropWhile p with
      | d :: ds => if isWsRe d then some (skipWsRe ds) else none
      | [] => none
  | _ => none

/-- Method `extractOption`: strip verb and flags, then store either
`key value` (value trimmed of quotes) or a single `key=value` token into
the options map, overwriting any prior value for that key. -/
def extractOption (cfg : TmuxConfig) (line0 : List Char) : TmuxConfig :=
  let line1 := stripOptVerb line0
  let line2 := scanStrip gswuFlagAt (line1.length + 1) line1
  match splitN2 ' ' (trimSpace line2) with
  | [k, v] => { cfg with Options := setK cfg.Options ⟨k⟩ ⟨trimBoth isQuote v⟩ }
  | [t] =>
    if containsSub "=".data t then
      let k := t.takeWhile (fun c => !(c = '='))
      match t.dropWhile (fun c => !(c = '=')) with
      | _ :: v => { cfg with Options := setK cfg.Options ⟨k⟩ ⟨trimBoth isQuote v⟩ }
      | [] => cfg
    else cfg
  | _ => cfg

/-- Method `parseLine`: dispatch one trimmed line to the prefix, binding
and option extractors. -/
def parseLine (order : List (String × String)) (cfg : TmuxConfig)
    (line : List Char) : TmuxConfig :=
  let cfg1 := if containsSub "prefix".data line then extractPfx cfg line else cfg
  let cfg2 :=
    if isPfx "bind-key".data line || isPfx "bind".data line then
      extractBinding order cfg1 line
    else cfg1
  if isPfx "set-option".data line || isPfx "set ".data line ||
     isPfx "set-window-option".data line || isPfx "setw ".data line then
    extractOption cfg2 line
  else cfg2

/-- Drop every trailing backslash: the source loops
`for strings.HasSuffix(line, BACKSLASH) { line = TrimSuffix(...) }`. -/
def stripContinuation (s : List Char) : List Char :=
  (s.reverse.dropWhile (fun c => c = '\\')).reverse

/-- Body of `ParseTmuxConfig` after the file read: split into lines,
trim, skip blanks and comments, strip continuation markers (without
joining lines), dispatch each remaining line. -/
def parseTmuxText (order : List (String × String)) (path content : String) : TmuxConfig :=
  let init : TmuxConfig :=
    { Pfx := "C-b", Keymaps := [], ConfigPath := path, Options := [] }
  (splitOnChar '\n' content.data).foldl
    (fun cfg raw =>
      let line := trimSpace raw
      if line.isEmpty || isPfx "#".data line then cfg
      else parseLine order cfg (stripContinuation line))
    init

/-- Function `ParseTmuxConfig`: read the file (a read failure is the only
error and is propagated, modelled by `none`), then scan the text. -/
def ParseTmuxConfig (order : List (String × String))
    (readF : String → Option String) (path : String) : Option TmuxConfig :=
  (readF path).map (parseTmuxText order path)

/-! ## Neovim data model (internal/parser/nvim.go) -/

/-- Keymap represents a Neovim keymap (struct `Keymap`). -/
structure Keymap where
  Mode : String
  Lhs : String
  Rhs : String
  Description : String
  Source : String
deriving DecidableEq, Repr

/-- Plugin represents a Neovim plugin (struct `Plugin`; the `Config`
key-value bag is never written by the extractor and is omitted). -/
structure Plugin where
  Name : String
  Enabled : Bool
deriving DecidableEq, Repr

/-- NvimConfig represents parsed Neovim configuration
(struct `NvimConfig`). -/
structure NvimConfig where
  Leader : String
  Keymaps : List Keymap
  Plugins : List Plugin
  ConfigPath : String
deriving DecidableEq, Repr

/-! ## Cache manager (internal/parser/cache.go)

Timestamps are integers in seconds; the Go zero `time.Time` is the
integer 0.  The persisted cache file is modelled as `Option Cache`
(`none` = no file): `Save` marshals the snapshot to JSON and `LoadCache`
unmarshals it, and for the string-typed fields involved this
serialization round-trip is the identity, so the file stores the
snapshot itself.  `Metadata` values (`map[string]interface{}` in Go) are
abstracted to strings; the maps carry no Go nil/empty distinction
(`LoadCache` replaces a missing map by an empty one, so a loaded cache
never exposes the distinction). -/

/-- Cache represents cached configuration data (struct `Cache`). -/
structure Cache where
  NvimConfig : Option NvimConfig
  TmuxConfig : Option TmuxConfig
  LastParsed : Int
  ConfigHashes : List (String × String)
  Metadata : List (String × String)
deriving DecidableEq

/-- Snapshot returned by `LoadCache` when no cache file exists: zero
value of the struct with the two maps initialised empty. -/
def emptyCache : Cache :=
  { NvimConfig := none, TmuxConfig := none, LastParsed := 0,
    ConfigHashes := [], Metadata := [] }

/-- Function `LoadCache` on the success path: no file yields the empty
snapshot (not an error); otherwise the persisted snapshot is returned
with nil maps initialised (invisible here, see the model note above). -/
def LoadCache (store : Option Cache) : Cache :=
  match store with
  | none => emptyCache
  | some c => c

/-- Method `Save`: stamp the current time as `LastParsed`, then persist
the snapshot (directory creation and write errors are outside the
success path modelled here).  Returns the updated in-memory snapshot and
the new file state. -/
def Cache.save (c : Cache) (now : Int) : Cache × Option Cache :=
  let c2 := { c with LastParsed := now }
  (c2, some c2)

/-- Method `IsStale`: true when `LastParsed` is the zero time or
`time.Since(LastParsed)` exceeds `ttlHours` hours (3600 seconds each). -/
def Cache.isStale (c : Cache) (now ttlHours : Int) : Bool :=
  if c.LastParsed = 0 then true
  else decide (now - c.LastParsed > ttlHours * 3600)

/-- Method `Clear`: reset `NvimConfig`, `TmuxConfig`, `ConfigHashes` and
`LastParsed` in memory (the source does not touch `Metadata`) and remove
the persisted file. -/
def Cache.clear (c : Cache) : Cache × Option Cache :=
  ({ c with NvimConfig := none, TmuxConfig := none,
            ConfigHashes := [], LastParsed := 0 }, none)

/-! ## Neovim extractor (internal/parser/nvim.go) -/

/-- Lazy `(.+?)["']` of the leader patterns: the shortest nonempty run
of non-newline characters followed by a quote; returns the run and the
text after the closing quote. -/
def lazyQAux : Nat → List Char → List Char → Option (List Char × List Char)
  | _, _, [] => none
  | 0, _, _ => none
  | fuel + 1, acc, c :: rest =>
    if isQuote c then some (acc.reverse, rest)
    else if c = '\n' then none
    else lazyQAux fuel (c :: acc) rest

/-- Entry point of the lazy quoted-value scanner (the first character is
consumed unconditionally: `.+?` needs at least one character). -/
def lazyQ : List Char → Option (List Char × List Char)
  | [] => none
  | c :: rest => if c = '\n' then none else lazyQAux rest.length [c] rest

/-- Common tail `\s*=\s*["'](.+?)["']` of the three leader patterns and
the Vimscript `let` pattern; returns the captured value. -/
def eqQuotedAt (s : List Char) : Option (List Char) :=
  let r1 := skipWsRe s
  (expectChar '=' r1).bind fun r2 =>
  let r3 := skipWsRe r2
  match r3 with
  | c :: rest => if isQuote c then (lazyQ rest).map (·.1) else none
  | [] => none

/-- Pattern 1 of `extractLeaderFromLua`: `vim\.g\.mapleader\s*=\s*["'](.+?)["']`. -/
def leaderP1At (s : List Char) : Option (List Char) :=
  (expectStr "vim.g.mapleader".data s).bind eqQuotedAt

/-- Pattern 2: `vim\.g\["mapleader"\]\s*=\s*["'](.+?)["']`. -/
def leaderP2At (s : List Char) : Option (List Char) :=
  (expectStr "vim.g[\"mapleader\"]".data s).bind eqQuotedAt

/-- Pattern 3: `g\.mapleader\s*=\s*["'](.+?)["']`. -/
def leaderP3At (s : List Char) : Option (List Char) :=
  (expectStr "g.mapleader".data s).bind eqQuotedAt

/-- Method `extractLeaderFromLua`: the patterns are tried in order over
the whole content; the first pattern with a match anywhere wins. -/
def extractLeaderFromLua (cfg : NvimConfig) (content : String) : NvimConfig :=
  match scanFirst leaderP1At (content.data.length + 1) content.data with
  | some v => { cfg with Leader := ⟨v⟩ }
  | none =>
    match scanFirst leaderP2At (content.data.length + 1) content.data with
    | some v => { cfg with Leader := ⟨v⟩ }
    | none =>
      match scanFirst leaderP3At (content.data.length + 1) content.data with
      | some v => { cfg with Leader := ⟨v⟩ }
      | none => cfg

/-- Quoted token `["'](CLASS+)["']` with a class disjoint from the
quotes (the `[nvixsotc]+` and `[^"']+` capture groups): greedy and
deterministic because the class cannot contain the closing quote. -/
def quotedTok (p : Char → Bool) : List Char → Option (List Char × List Char)
  | [] => none
  | c :: rest =>
    if isQuote c then
      let v := rest.takeWhile p
      match rest.dropWhile p with
      | d :: r2 => if v.isEmpty then none else if isQuote d then some (v, r2) else none
      | [] => none
    else none

/-- Third position of the keymap pattern,
`(?:["']([^"']+)["']|function|[^,]+)`, alternatives in leftmost-first
order; the capture group is empty for the last two alternatives. -/
def parseRhs (s : List Char) : Option (List Char × List Char) :=
  match quotedTok (fun c => !isQuote c) s with
  | some (v, r) => some (v, r)
  | none =>
    match expectStr "function".data s with
    | some r => some ([], r)
    | none =>
      match s.takeWhile (fun c => !(c = ',')) with
      | [] => none
      | _ => some ([], s.dropWhile (fun c => !(c = ',')))

/-- Optional trailing-options group `(?:,\s*\x7b([^\x7d]*)\x7d)?` of the
keymap pattern (braces escaped here): returns the captured group text
and the remainder, or `none` when the group does not match (the overall
match then simply omits it). -/
def parseOptsGroup (s : List Char) : Option (List Char × List Char) :=
  (expectChar ',' s).bind fun r1 =>
  let r2 := skipWsRe r1
  (expectChar '\x7b' r2).bind fun r3 =>
  let v := r3.takeWhile (fun c => !(c = '\x7d'))
  match r3.dropWhile (fun c => !(c = '\x7d')) with
  | _ :: r4 => some (v, r4)
  | [] => none

/-- Whole keymap-call pattern
`vim\.keymap\.set\s*\(\s*["']([nvixsotc]+)["']\s*,\s*["']([^"']+)["']\s*,\s*RHS\s*OPTS?`
compiled at one position; returns the four capture groups (options group
optional) and the text after the match. -/
def parseKeymapCallAt (s : List Char) :
    Option ((List Char × List Char × List Char × Option (List Char)) × List Char) :=
  (expectStr "vim.keymap.set".data s).bind fun s1 =>
  (expectChar '(' (skipWsRe s1)).bind fun s3 =>
  (quotedTok isModeChar (skipWsRe s3)).bind fun (mode, s5) =>
  (expectChar ',' (skipWsRe s5)).bind fun s7 =>
  (quotedTok (fun c => !isQuote c) (skipWsRe s7)).bind fun (lhs, s9) =>
  (expectChar ',' (skipWsRe s9)).bind fun s11 =>
  (parseRhs (skipWsRe s11)).bind fun (rhs, s13) =>
  let s14 := skipWsRe s13
  match parseOptsGroup s14 with
  | some (opts, s15) => some ((mode, lhs, rhs, some opts), s15)
  | none => some ((mode, lhs, rhs, none), s14)

/-- Description pattern `desc\s*=\s*["']([^"']+)["']` at one position. -/
def descPatAt (s : List Char) : Option (List Char) :=
  (expectStr "desc".data s).bind fun r1 =>
  (expectChar '=' (skipWsRe r1)).bind fun r3 =>
  (quotedTok (fun c => !isQuote c) (skipWsRe r3)).map (·.1)

/-- Keymap record built from one match of the call pattern: the
description is scraped from a nonempty options group. -/
def kmOfGroups (source : String)
    (g : List Char × List Char × List Char × Option (List Char)) : Keymap :=
  let (mode, lhs, rhs, opts) := g
  let descr : String :=
    match opts with
    | some o =>
      if o.isEmpty then ""
      else
        match scanFirst descPatAt (o.length + 1) o with
        | some d => ⟨d⟩
        | none => ""
    | none => ""
  { Mode := ⟨mode⟩, Lhs := ⟨lhs⟩, Rhs := ⟨rhs⟩, Description := descr, Source := source }

/-- Alternatives of an optional single-character class (`X?`), consumed
form first (Perl-greedy order). -/
def optTake (p : Char → Bool) (s : List Char) : List (List Char × List Char) :=
  match s with
  | c :: rest => if p c then [([c], rest), ([], s)] else [([], s)]
  | [] => [([], s)]

/-- Alternatives of an optional literal (`(?:lit)?`), consumed form
first. -/
def optStr (lit : List Char) (s : List Char) : List (List Char) :=
  match expectStr lit s with
  | some r => [r, s]
  | none => [s]

/-- Group `([nvixsotc]?n?o?remap)` of the `vim.cmd` mapping pattern,
trying the optional parts greedily in Perl backtracking order; returns
the captured command name and the remainder. -/
def remapTokAt (s : List Char) : Option (List Char × List Char) :=
  ((optTake isModeChar s).flatMap fun p1 =>
   (optTake (fun c => c = 'n') p1.2).flatMap fun p2 =>
   (optTake (fun c => c = 'o') p2.2).flatMap fun p3 =>
   match expectStr "remap".data p3.2 with
   | some r => [(p1.1 ++ p2.1 ++ p3.1 ++ "remap".data, r)]
   | none => []).head?

/-- Pattern `vim\.cmd\s*\[\[?\s*([nvixsotc]?n?o?remap)\s+([^\s]+)\s+([^\]]+)`
at one position; returns the three capture groups and the remainder.
The final `\s+([^\]]+)` pair backtracks one whitespace character when
the remainder would otherwise be empty. -/
def parseCmdAt (s : List Char) :
    Option ((List Char × List Char × List Char) × List Char) :=
  (expectStr "vim.cmd".data s).bind fun r1 =>
  (expectChar '[' (skipWsRe r1)).bind fun r3 =>
  let r3b := match expectChar '[' r3 with
    | some r => r
    | none => r3
  (remapTokAt (skipWsRe r3b)).bind fun (cmd, r5) =>
  match r5.takeWhile (fun c => !isWsRe c) with
  | [] => none
  | lhs =>
    let r6 := r5.dropWhile (fun c => !isWsRe c)
    let wsRun := r6.takeWhile isWsRe
    let r7 := r6.dropWhile isWsRe
    if wsRun.isEmpty then none
    else
      let rhs := r7.takeWhile (fun c => !(c = ']'))
      if rhs.isEmpty then
        if 2 ≤ wsRun.length then
          match wsRun.getLast? with
          | some w => some ((cmd, lhs, [w]), r7)
          | none => none
        else none
      else some ((cmd, lhs, rhs), r7.dropWhile (fun c => !(c = ']')))

/-- Keymap record built from one match of the `vim.cmd` mapping pattern:
mode is the leading mode letter of the command name when it has one,
defaulting to normal mode. -/
def kmOfCmdGroups (source : String)
    (g : List Char × List Char × List Char) : Keymap :=
  let (cmd, lhs, rhs) := g
  let mode : String :=
    match cmd with
    | c :: _ => if isModeChar c then ⟨[c]⟩ else "n"
    | [] => "n"
  { Mode := mode, Lhs := ⟨trimSpace lhs⟩, Rhs := ⟨trimSpace rhs⟩,
    Description := "", Source := source }

/-- Method `extractKeymapsFromLua`: all matches of the call pattern,
then all matches of the `vim.cmd` mapping pattern, appended in that
order to the accumulated keymap sequence. -/
def extractKeymapsFromLua (cfg : NvimConfig) (content source : String) : NvimConfig :=
  let kms1 := (scanMatches parseKeymapCallAt (content.data.length + 1) content.data).map
    (kmOfGroups source)
  let kms2 := (scanMatches parseCmdAt (content.data.length + 1) content.data).map
    (kmOfCmdGroups source)
  { cfg with Keymaps := cfg.Keymaps ++ kms1 ++ kms2 }

/-- Method `parseLuaWithInterpreter`: the source builds a fresh
gopher-lua state with mock `vim` tables and closes it again; it never
runs `DoString` (or any other evaluation) on the content and never
writes to the receiver, so its effect on the configuration model is the
identity and the content parameter is unused, exactly as in the
source. -/
def parseLuaWithInterpreter (cfg : NvimConfig) (content : String) : NvimConfig :=
  let _ := content
  cfg

/-- Body of `parseLuaConfig` after the file read: the three passes in
source order (leader, keymaps, interpreter stub). -/
def parseLuaText (cfg : NvimConfig) (content source : String) : NvimConfig :=
  parseLuaWithInterpreter
    (extractKeymapsFromLua (extractLeaderFromLua cfg content) content source)
    content

/-- Vimscript leader pattern `let\s+(?:g:)?mapleader\s*=\s*["'](.+?)["']`
at one position. -/
def letLeaderAt (s : List Char) : Option (List Char) :=
  (expectStr "let".data s).bind fun r1 =>
  (ws1 r1).bind fun r2 =>
  let r3 := match expectStr "g:".data r2 with
    | some r => r
    | none => r2
  (expectStr "mapleader".data r3).bind eqQuotedAt

/-- Optional group `(?:<[^>]+>\s+)?` of the Vimscript mapping pattern,
consumed alternative first. -/
def optAngle (s : List Char) : List (List Char) :=
  match s with
  | '<' :: rest =>
    let v := rest.takeWhile (fun c => !(c = '>'))
    if v.isEmpty then [s]
    else
      match rest.dropWhile (fun c => !(c = '>')) with
      | _ :: r2 =>
        match ws1 r2 with
        | some r3 => [r3, s]
        | none => [s]
      | [] => [s]
  | _ => [s]

/-- Anchored Vimscript mapping pattern
`^([nvixsotc]?)(?:nore)?map\s+(?:<[^>]+>\s+)?(\S+)\s+(.+)$` on one
trimmed line, with the optional parts tried in Perl backtracking order;
returns the mode, lhs and rhs capture groups. -/
def vimMapAt (s : List Char) : Option (List Char × List Char × List Char) :=
  ((optTake isModeChar s).flatMap fun p1 =>
    (optStr "nore".data p1.2).flatMap fun s2 =>
    match (expectStr "map".data s2).bind ws1 with
    | none => []
    | some s4 =>
      (optAngle s4).flatMap fun s5 =>
        match s5.takeWhile (fun c => !isWsRe c) with
        | [] => []
        | lhs =>
          let s6 := s5.dropWhile (fun c => !isWsRe c)
          let wsRun := s6.takeWhile isWsRe
          let s7 := s6.dropWhile isWsRe
          if wsRun.isEmpty then []
          else if s7.isEmpty then
            if 2 ≤ wsRun.length then
              match wsRun.getLast? with
              | some w => [(p1.1, lhs, [w])]
              | none => []
            else []
          else [(p1.1, lhs, s7)]).head?

/-- Body of `parseVimConfig` after the file read: line by line, skip
comment lines, re-run the `let` leader pattern on lines mentioning
`mapleader`, and append one keymap per line matching the mapping
pattern (mode defaults to normal). -/
def parseVimConfig (cfg0 : NvimConfig) (content filePath : String) : NvimConfig :=
  (splitOnChar '\n' content.data).foldl
    (fun cfg rawLine =>
      let line := trimSpace rawLine
      if isPfx "\"".data line then cfg
      else
        let cfg1 :=
          if containsSub "mapleader".data line then
            match scanFirst letLeaderAt (line.length + 1) line with
            | some v => { cfg with Leader := ⟨v⟩ }
            | none => cfg
          else cfg
        match vimMapAt line with
        | some (m, lhs, rhs) =>
          let mode : String := if m.isEmpty then "n" else ⟨m⟩
          { cfg1 with Keymaps := cfg1.Keymaps ++
              [{ Mode := mode, Lhs := ⟨lhs⟩, Rhs := ⟨trimSpace rhs⟩,
                 Description := "", Source := filePath }] }
        | none => cfg1)
    cfg0

/-- Plugin-name pattern `["']([a-zA-Z0-9_-]+/[a-zA-Z0-9._-]+)["']` at
one position; returns the captured `owner/repo` text and the remainder
after the match. -/
def pluginPatAt (s : List Char) : Option (List Char × List Char) :=
  match s with
  | c :: rest =>
    if isQuote c then
      let pA : Char → Bool := fun d => d.isAlphanum || d = '_' || d = '-'
      let a := rest.takeWhile pA
      if a.isEmpty then none
      else
        match rest.dropWhile pA with
        | '/' :: r2 =>
          let pB : Char → Bool := fun d => d.isAlphanum || d = '.' || d = '_' || d = '-'
          let b := r2.takeWhile pB
          if b.isEmpty then none
          else
            match r2.dropWhile pB with
            | d :: r3 => if isQuote d then some (a ++ '/' :: b, r3) else none
            | [] => none
        | _ => none
    else none
  | [] => none

/-- Go `strings.HasSuffix`. -/
def hasSfx (pat s : List Char) : Bool :=
  isPfx pat.reverse s.reverse

/-- Directory-and-file view of the pieces of `os` used by the Neovim
extractor: `statOk p` is `os.Stat(p); err == nil`, `readF` is
`os.ReadFile` (`none` = error), `readD` is `os.ReadDir` returning
name/is-directory pairs in directory order (`none` = error). -/
structure NvimFS where
  statOk : String → Bool
  readF : String → Option String
  readD : String → Option (List (String × Bool))

/-- Go `filepath.Join` for the clean relative components used by the
source. -/
def pathJoin (a b : String) : String :=
  a ++ "/" ++ b

/-- Method `parseLuaConfig`: read the file (on error return it with the
receiver untouched; the caller ignores the error), then run the three
passes. -/
def parseLuaConfig (fs : NvimFS) (cfg : NvimConfig) (filePath : String) : NvimConfig :=
  match fs.readF filePath with
  | none => cfg
  | some text => parseLuaText cfg text filePath

/-- Method `parseVimConfig` including its file read (same error shape as
`parseLuaConfig`). -/
def parseVimConfigFile (fs : NvimFS) (cfg : NvimConfig) (filePath : String) : NvimConfig :=
  match fs.readF filePath with
  | none => cfg
  | some text => parseVimConfig cfg text filePath

/-- Method `parseLazyPlugins`: for every non-directory `.lua` entry of a
readable plugin directory, record one Plugin per `owner/repo` string
literal (repo component only; `Enabled` is the whole-file disable-marker
heuristic) and re-run the keymap extraction over the file text. -/
def parseLazyPlugins (fs : NvimFS) (cfg0 : NvimConfig) (pluginDir : String) : NvimConfig :=
  match fs.readD pluginDir with
  | none => cfg0
  | some entries =>
    entries.foldl
      (fun cfg e =>
        if e.2 then cfg
        else if !hasSfx ".lua".data e.1.data then cfg
        else
          let filePath := pathJoin pluginDir e.1
          match fs.readF filePath with
          | none => cfg
          | some text =>
            let ms := scanMatches pluginPatAt (text.data.length + 1) text.data
            let cfg1 := ms.foldl
              (fun c mtext =>
                match splitOnChar '/' mtext with
                | [_, repo] =>
                  { c with Plugins := c.Plugins ++
                      [{ Name := ⟨repo⟩,
                         Enabled := !containsSub "enabled = false".data text.data }] }
                | _ => c)
              cfg
            extractKeymapsFromLua cfg1 text filePath)
      cfg0

/-- Function `ParseNvimConfig`: best-effort scan of the recognized files
below a config directory; the Go function returns a nil error
unconditionally, hence the always-`ok` result. -/
def ParseNvimConfig (fs : NvimFS) (configPath : String) : Except String NvimConfig :=
  let cfg : NvimConfig :=
    { Leader := "\\", Keymaps := [], Plugins := [], ConfigPath := configPath }
  let initLua := pathJoin configPath "init.lua"
  let cfg := if fs.statOk initLua then parseLuaConfig fs cfg initLua else cfg
  let initVim := pathJoin configPath "init.vim"
  let cfg := if fs.statOk initVim then parseVimConfigFile fs cfg initVim else cfg
  let lazyDir := pathJoin (pathJoin configPath "lua") "plugins"
  let cfg := if fs.statOk lazyDir then parseLazyPlugins fs cfg lazyDir else cfg
  let d1 := pathJoin (pathJoin (pathJoin configPath "lua") "config") "plugins"
  let d2 := pathJoin (pathJoin (pathJoin configPath "lua") "user") "plugins"
  let d3 := pathJoin (pathJoin configPath "after") "plugin"
  let cfg := if fs.statOk d1 then parseLazyPlugins fs cfg d1 else cfg
  let cfg := if fs.statOk d2 then parseLazyPlugins fs cfg d2 else cfg
  let cfg := if fs.statOk d3 then parseLazyPlugins fs cfg d3 else cfg
  Except.ok cfg

/-! ## Claim-specific inputs and spec-side definitions -/

/-- Modelled from the claim's words (C6 only): the textually first
(leftmost) match of any of the three leader-assignment patterns, trying
the patterns in source order at each position. -/
def firstLeaderAssign (content : String) : Option String :=
  (scanFirst
    (fun s =>
      match leaderP1At s with
      | some v => some v
      | none =>
        match leaderP2At s with
        | some v => some v
        | none => leaderP3At s)
    (content.data.length + 1) content.data).map (fun v => (⟨v⟩ : String))

/-- Content whose textually first leader assignment is the table-index
form (C6). -/
def c6content : String := "vim.g[\"mapleader\"] = \",\"\nvim.g.mapleader = \";\""

/-- Neovim configuration value before any extraction pass (fresh struct
with the default leader). -/
def nvimDefault (p : String) : NvimConfig :=
  { Leader := "\\", Keymaps := [], Plugins := [], ConfigPath := p }

/-- Cache snapshot with a nonempty metadata map (C5). -/
def c5cache : Cache :=
  { emptyCache with Metadata := [("k", "v")] }

/-- A second legitimate iteration order of the `descriptions` map:
`split-window` moved to the front (C4). -/
def descOrderB : List (String × String) :=
  ("split-window", "Split pane") :: descTable.erase ("split-window", "Split pane")

/-- Interference input for C1: a preceding call with an unterminated
third string literal, followed by a perfectly well-formed call. -/
def c1interference : String :=
  "vim.keymap.set(\"n\", \"a\", \"b\nvim.keymap.set(\"n\", \"<leader>w\", \":w<CR>\", \x7b desc = \"Save file\" \x7d)"

/-- Keymap record the well-formed call of `c1interference` should
produce according to the claim. -/
def c1expected : Keymap :=
  { Mode := "n", Lhs := "<leader>w", Rhs := ":w<CR>",
    Description := "Save file", Source := "init.lua" }

/-! ## Helper lemmas -/

/-- Lookup after a Go-style map assignment finds the assigned value. -/
theorem lookup_setK (m : List (String × String)) (k v : String) :
    List.lookup k (setK m k v) = some v := by
  unfold setK
  induction m with
  | nil => simp [List.lookup]
  | cons p rest ih =>
    by_cases hp : p.1 = k
    · simpa [List.filter, hp] using ih
    · have hb : (k == p.1) = false := by
        simp [BEq.beq]
        exact fun hk => hp hk.symm
      simp only [List.filter]
      simp only [show (!(p.1 = k : Bool)) = true by simp [hp]]
      simpa [List.lookup, hb] using ih

/-- The exact-match loop of `describeCommand` finds nothing when no key
of the iteration order is a prefix of the command. -/
theorem firstMatchDesc_eq_none (order : List (String × String)) (cmd : List Char)
    (h : ∀ e ∈ order, isPfx e.1.data cmd = false) :
    firstMatchDesc order cmd = none := by
  induction order with
  | nil => rfl
  | cons e rest ih =>
    have he : isPfx e.1.data cmd = false := h e (List.mem_cons_self e rest)
    simp only [firstMatchDesc, he]
    exact ih fun x hx => h x (List.mem_cons_of_mem e hx)

/-! ## Claim theorems -/

/-- C2: the Lua-interpreter helper executes no part of the input and
leaves the configuration unchanged, so the `parseLuaConfig` pipeline
returns exactly what the two textual pattern passes (leader and
keymaps) produce. -/
theorem c2_interpreter_never_evaluates :
    ∀ (cfg : NvimConfig) (content source : String),
      parseLuaWithInterpreter cfg content = cfg
      ∧ parseLuaText cfg content source
          = extractKeymapsFromLua (extractLeaderFromLua cfg content) content source :=
  fun _ _ _ => ⟨rfl, rfl⟩

/-- C3: Save followed immediately by LoadCache returns the saved
snapshot; every field other than `LastParsed` equals the original, and
`LastParsed` is refreshed to the save time, no earlier than before. -/
theorem c3_save_load_roundtrip (c : Cache) (now : Int)
    (h : c.LastParsed ≤ now) :
    LoadCache (Cache.save c now).2 = (Cache.save c now).1
    ∧ ((Cache.save c now).1).NvimConfig = c.NvimConfig
    ∧ ((Cache.save c now).1).TmuxConfig = c.TmuxConfig
    ∧ ((Cache.save c now).1).ConfigHashes = c.ConfigHashes
    ∧ ((Cache.save c now).1).Metadata = c.Metadata
    ∧ c.LastParsed ≤ ((Cache.save c now).1).LastParsed :=
  ⟨rfl, rfl, rfl, rfl, rfl, h⟩

/-- Witness for C3 at a concrete snapshot and save time. -/
theorem c3_save_load_roundtrip_witness :
    LoadCache (Cache.save c5cache 5).2 = (Cache.save c5cache 5).1
    ∧ ((Cache.save c5cache 5).1).NvimConfig = c5cache.NvimConfig
    ∧ ((Cache.save c5cache 5).1).TmuxConfig = c5cache.TmuxConfig
    ∧ ((Cache.save c5cache 5).1).ConfigHashes = c5cache.ConfigHashes
    ∧ ((Cache.save c5cache 5).1).Metadata = c5cache.Metadata
    ∧ c5cache.LastParsed ≤ ((Cache.save c5cache 5).1).LastParsed :=
  c3_save_load_roundtrip c5cache 5 (by decide)

/-- C5 counterexample: `Clear` does not empty the metadata map, so a
snapshot with nonempty metadata is not reset to the empty snapshot. -/
theorem c5_clear_keeps_metadata :
    ((Cache.clear c5cache).1).Metadata = [("k", "v")]
    ∧ (Cache.clear c5cache).1 ≠ emptyCache := by
  exact ⟨rfl, by decide⟩

/-- C5 as amended: `Clear` resets the configs, the config-hash map and
`lastParsed`, deletes the persisted file, but retains the metadata map
unchanged. -/
theorem c5_clear_resets_all_but_metadata (c : Cache) :
    Cache.clear c =
      ({ NvimConfig := none, TmuxConfig := none, LastParsed := 0,
         ConfigHashes := [], Metadata := c.Metadata }, none) :=
  rfl

/-- C8: `IsStale` is true exactly when `LastParsed` is the zero time or
lies more than `ttlHours` hours in the past; with a 24-hour TTL a
snapshot 25 hours old is stale and one 1 hour old is not. -/
theorem c8_isStale_characterisation :
    (∀ (c : Cache) (now ttlHours : Int),
        Cache.isStale c now ttlHours = true ↔
          c.LastParsed = 0 ∨ now - c.LastParsed > ttlHours * 3600)
    ∧ Cache.isStale { emptyCache with LastParsed := 1000000 - 25 * 3600 } 1000000 24 = true
    ∧ Cache.isStale { emptyCache with LastParsed := 1000000 - 3600 } 1000000 24 = false := by
  refine ⟨fun c now ttl => ?_, by decide, by decide⟩
  unfold Cache.isStale
  by_cases hz : c.LastParsed = 0 <;> simp [hz]

/-- C9: a duplicated option key keeps the value of the last occurrence
in the file (shown on the claim's two-line input for every map
iteration order, which the option pass never consults), and the
underlying map assignment is last-write-wins for every map state. -/
theorem c9_duplicate_option_last_write_wins :
    (∀ order : List (String × String),
        List.lookup "status-left"
          (parseTmuxText order "tmux.conf"
            "set -g status-left \"a\"\nset -g status-left \"b\"").Options = some "b")
    ∧ ∀ (m : List (String × String)) (k v : String),
        List.lookup k (setK m k v) = some v :=
  ⟨fun _ => rfl, lookup_setK⟩

/-- C4: tmux extraction is not a pure function of the file contents:
`describeCommand` ranges over a Go map, and two legitimate iteration
orders of that map give structurally different results for the same
input (line `bind x split-window -h`, whose command has two table keys
as prefixes). -/
theorem c4_extraction_depends_on_map_iteration_order :
    List.Perm descTable descOrderB
    ∧ parseTmuxText descTable "tmux.conf" "bind x split-window -h"
        ≠ parseTmuxText descOrderB "tmux.conf" "bind x split-window -h" := by
  constructor
  · unfold descOrderB
    exact List.perm_cons_erase
      (show (("split-window", "Split pane") : String × String) ∈ descTable by decide)
  · decide

/-- C6 counterexample: in `c6content` the textually first matching
leader assignment is the table-index form with value `,`, but extraction
returns `;` from the later dot-form assignment, because the dot-form
pattern is tried over the whole content first. -/
theorem c6_first_assignment_loses :
    firstLeaderAssign c6content = some ","
    ∧ (extractLeaderFromLua (nvimDefault "p") c6content).Leader = ";"
    ∧ (";" : String) ≠ "," :=
  ⟨rfl, rfl, by decide⟩

/-- C6 as amended: the extracted leader is the leftmost match of the
dot-form pattern if it matches anywhere; otherwise the leftmost match of
the table-index form; otherwise of the bare `g.mapleader` form;
otherwise the prior (default) leader is retained. -/
theorem c6_leader_pattern_priority (cfg : NvimConfig) (content : String) :
    (extractLeaderFromLua cfg content).Leader =
      match scanFirst leaderP1At (content.data.length + 1) content.data with
      | some v => (⟨v⟩ : String)
      | none =>
        match scanFirst leaderP2At (content.data.length + 1) content.data with
        | some v => (⟨v⟩ : String)
        | none =>
          match scanFirst leaderP3At (content.data.length + 1) content.data with
          | some v => (⟨v⟩ : String)
          | none => cfg.Leader := by
  unfold extractLeaderFromLua
  cases h1 : scanFirst leaderP1At (content.data.length + 1) content.data with
  | some v => simp [h1]
  | none =>
    cases h2 : scanFirst leaderP2At (content.data.length + 1) content.data with
    | some v => simp [h1, h2]
    | none =>
      cases h3 : scanFirst leaderP3At (content.data.length + 1) content.data with
      | some v => simp [h1, h2, h3]
      | none => simp [h1, h2, h3]

/-- C7: the line `bind-key -n M-Left select-pane -L` appends exactly one
keymap, in the root table, with key `M-Left`, command `select-pane -L`
and the non-empty derived description `Select pane`, for every prior
configuration state and every iteration order of the description map. -/
theorem c7_bind_key_root_table (cfg : TmuxConfig) (order : List (String × String))
    (h : List.Perm order descTable) :
    parseLine order cfg "bind-key -n M-Left select-pane -L".data
      = { cfg with Keymaps := cfg.Keymaps ++
            [{ Key := "M-Left", Command := "select-pane -L",
               Description := "Select pane", Table := "root" }] } := by
  have hmem : ∀ e ∈ descTable, isPfx e.1.data (lowerL "select-pane -L".data) = false := by
    decide
  have hnone : firstMatchDesc order (lowerL "select-pane -L".data) = none :=
    firstMatchDesc_eq_none order _ fun e he => hmem e (h.subset he)
  have hd : describeCommand order "select-pane -L".data = "Select pane" := by
    simp only [describeCommand]
    rw [hnone]
    rfl
  calc parseLine order cfg "bind-key -n M-Left select-pane -L".data
      = { cfg with Keymaps := cfg.Keymaps ++
            [{ Key := "M-Left", Command := "select-pane -L",
               Description := describeCommand order "select-pane -L".data,
               Table := "root" }] } := rfl
    _ = _ := by rw [hd]

/-- Witness for C7 at the empty configuration and the source-order
iteration of the description map. -/
theorem c7_bind_key_root_table_witness :
    parseLine descTable
      { Pfx := "C-b", Keymaps := [], ConfigPath := "t", Options := [] }
      "bind-key -n M-Left select-pane -L".data
      = { Pfx := "C-b",
          Keymaps := [{ Key := "M-Left", Command := "select-pane -L",
                        Description := "Select pane", Table := "root" }],
          ConfigPath := "t", Options := [] } :=
  c7_bind_key_root_table
    { Pfx := "C-b", Keymaps := [], ConfigPath := "t", Options := [] }
    descTable (List.Perm.refl _)

/-- C10: when none of the candidate files and plugin directories below
the configuration path exist, `ParseNvimConfig` returns, without error,
the default model: leader backslash, no keymaps, no plugins. -/
theorem c10_missing_dir_default_model (fs : NvimFS) (p : String)
    (h1 : fs.statOk (pathJoin p "init.lua") = false)
    (h2 : fs.statOk (pathJoin p "init.vim") = false)
    (h3 : fs.statOk (pathJoin (pathJoin p "lua") "plugins") = false)
    (h4 : fs.statOk (pathJoin (pathJoin (pathJoin p "lua") "config") "plugins") = false)
    (h5 : fs.statOk (pathJoin (pathJoin (pathJoin p "lua") "user") "plugins") = false)
    (h6 : fs.statOk (pathJoin (pathJoin p "after") "plugin") = false) :
    ParseNvimConfig fs p
      = Except.ok { Leader := "\\", Keymaps := [], Plugins := [], ConfigPath := p } := by
  unfold ParseNvimConfig
  simp [h1, h2, h3, h4, h5, h6]

/-- Witness for C10 on a file system where nothing exists. -/
theorem c10_missing_dir_default_model_witness :
    ParseNvimConfig ⟨fun _ => false, fun _ => none, fun _ => none⟩ "/home/user/.config/nvim"
      = Except.ok { Leader := "\\", Keymaps := [], Plugins := [],
                    ConfigPath := "/home/user/.config/nvim" } :=
  c10_missing_dir_default_model ⟨fun _ => false, fun _ => none, fun _ => none⟩
    "/home/user/.config/nvim" rfl rfl rfl rfl rfl rfl

/-! ## Scanner lemmas used by the C1 theorems -/

/-- Matching a literal against itself followed by anything succeeds. -/
theorem expectStr_append (l r : List Char) : expectStr l (l ++ r) = some r := by
  induction l with
  | nil => rfl
  | cons c cs ih => simp [expectStr, ih]

/-- A successful literal match decomposes the input. -/
theorem expectStr_some (l : List Char) : ∀ s r : List Char,
    expectStr l s = some r → s = l ++ r := by
  induction l with
  | nil =>
    intro s r h
    have hs : s = r := by simpa [expectStr] using h
    simpa using hs
  | cons c cs ih =>
    intro s r h
    cases s with
    | nil => simp [expectStr] at h
    | cons d ds =>
      by_cases hdc : d = c
      · subst hdc
        simp only [expectStr, if_pos rfl] at h
        simpa using ih ds r h
      · simp [expectStr, hdc] at h

/-- Matching an expected character at its own head. -/
theorem expectChar_cons (c : Char) (X : List Char) : expectChar c (c :: X) = some X := by
  simp [expectChar]

/-- A successful character match decomposes the input. -/
theorem expectChar_some (c : Char) (s r : List Char) (h : expectChar c s = some r) :
    s = c :: r := by
  cases s with
  | nil => simp [expectChar] at h
  | cons d ds =>
    by_cases hdc : d = c
    · subst hdc
      have : ds = r := by simpa [expectChar] using h
      rw [this]
    · simp [expectChar, hdc] at h

/-- Skipping whitespace stops at a non-whitespace head. -/
theorem skipWs_nows {c : Char} {X : List Char} (h : isWsRe c = false) :
    skipWsRe (c :: X) = c :: X := by
  simp [skipWsRe, List.dropWhile, h]

/-- Skipping whitespace consumes a whitespace head. -/
theorem skipWs_ws {c : Char} {X : List Char} (h : isWsRe c = true) :
    skipWsRe (c :: X) = skipWsRe X := by
  simp [skipWsRe, List.dropWhile, h]

/-- Greedy class run over a block that satisfies the class, stopped by a
delimiter that does not. -/
theorem takeWhile_all {p : Char → Bool} (xs : List Char) (y : Char) (r : List Char)
    (hxs : ∀ c ∈ xs, p c = true) (hy : p y = false) :
    (xs ++ y :: r).takeWhile p = xs := by
  induction xs with
  | nil => simp [List.takeWhile, hy]
  | cons c cs ih =>
    have hc : p c = true := hxs c (List.mem_cons_self c cs)
    have ih2 := ih fun d hd => hxs d (List.mem_cons_of_mem c hd)
    simp [List.takeWhile, hc, ih2]

/-- Companion of `takeWhile_all` for the dropped remainder. -/
theorem dropWhile_all {p : Char → Bool} (xs : List Char) (y : Char) (r : List Char)
    (hxs : ∀ c ∈ xs, p c = true) (hy : p y = false) :
    (xs ++ y :: r).dropWhile p = y :: r := by
  induction xs with
  | nil => simp [List.dropWhile, hy]
  | cons c cs ih =>
    have hc : p c = true := hxs c (List.mem_cons_self c cs)
    have ih2 := ih fun d hd => hxs d (List.mem_cons_of_mem c hd)
    simp [List.dropWhile, hc, ih2]

/-- A quoted class token surrounded by quote delimiters parses exactly. -/
theorem quotedTok_exact (p : Char → Bool) (v r : List Char) (o q : Char)
    (hv : ∀ c ∈ v, p c = true) (hne : v ≠ []) (hq : p q = false)
    (hqI : isQuote q = true) (hoI : isQuote o = true) :
    quotedTok p (o :: (v ++ q :: r)) = some (v, r) := by
  have hvE : v.isEmpty = false := by
    cases v with
    | nil => exact absurd rfl hne
    | cons a as => rfl
  simp only [quotedTok, hoI, if_true, takeWhile_all v q r hv hq,
    dropWhile_all v q r hv hq, hvE, hqI, Bool.false_eq_true, if_false]

/-- One `scanFirst` step that finds a match. -/
theorem scanFirst_found {A : Type} (att : List Char → Option A) (f : Nat) (s : List Char)
    (a : A) (h : att s = some a) : scanFirst att (f + 1) s = some a := by
  show scanFirstStep att (scanFirst att f) s = some a
  unfold scanFirstStep
  rw [h]

/-- One `scanFirst` step over a position with no match. -/
theorem scanFirst_skip {A : Type} (att : List Char → Option A) (f : Nat) (c : Char)
    (rest : List Char) (h : att (c :: rest) = none) :
    scanFirst att (f + 1) (c :: rest) = scanFirst att f rest := by
  show scanFirstStep att (scanFirst att f) (c :: rest) = scanFirst att f rest
  unfold scanFirstStep
  rw [h]

/-- `scanMatches` yields nothing on exhausted input. -/
theorem scanMatches_nil {A : Type} (att : List Char → Option (A × List Char))
    (h : att [] = none) (f : Nat) : scanMatches att f [] = [] := by
  cases f with
  | zero => rfl
  | succ f =>
    show scanMatchesStep att (scanMatches att f) [] = []
    unfold scanMatchesStep
    rw [h]

/-- One `scanMatches` step that finds a match and resumes after it. -/
theorem scanMatches_found {A : Type} (att : List Char → Option (A × List Char)) (f : Nat)
    (s : List Char) (a : A) (rest : List Char) (h : att s = some (a, rest)) :
    scanMatches att (f + 1) s = a :: scanMatches att f rest := by
  show scanMatchesStep att (scanMatches att f) s = a :: scanMatches att f rest
  unfold scanMatchesStep
  rw [h]

/-- One `scanMatches` step over a position with no match. -/
theorem scanMatches_skip {A : Type} (att : List Char → Option (A × List Char)) (f : Nat)
    (c : Char) (rest : List Char) (h : att (c :: rest) = none) :
    scanMatches att (f + 1) (c :: rest) = scanMatches att f rest := by
  show scanMatchesStep att (scanMatches att f) (c :: rest) = scanMatches att f rest
  unfold scanMatchesStep
  rw [h]

/-- The `vim.cmd` mapping pattern requires a literal `[`, so it cannot
match at any position of bracket-free text. -/
theorem parseCmdAt_none (s : List Char) (h : '[' ∉ s) : parseCmdAt s = none := by
  unfold parseCmdAt
  cases h1 : expectStr "vim.cmd".data s with
  | none => rfl
  | some r1 =>
    simp only [Option.some_bind]
    cases h2 : expectChar '[' (skipWsRe r1) with
    | none => rfl
    | some r3 =>
      exfalso
      apply h
      have hs : s = "vim.cmd".data ++ r1 := expectStr_some _ _ _ h1
      have hr : skipWsRe r1 = '[' :: r3 := expectChar_some _ _ _ h2
      have h5 : '[' ∈ skipWsRe r1 := by
        rw [hr]
        exact List.mem_cons_self _ _
      have h6 : '[' ∈ r1 := (List.dropWhile_sublist _).mem h5
      rw [hs]
      exact List.mem_append_right _ h6

/-- The whole `vim.cmd` pass yields nothing on bracket-free text. -/
theorem scanMatches_cmd_empty (f : Nat) : ∀ s : List Char, '[' ∉ s →
    scanMatches parseCmdAt f s = [] := by
  induction f with
  | zero => intro s _; rfl
  | succ f ih =>
    intro s h
    have hnone := parseCmdAt_none s h
    show scanMatchesStep parseCmdAt (scanMatches parseCmdAt f) s = []
    unfold scanMatchesStep
    rw [hnone]
    cases s with
    | nil => rfl
    | cons c rest => exact ih rest fun hm => h (List.mem_cons_of_mem c hm)

/-- The keymap-call pattern parses the claim's call template exactly,
capturing the four literals, and the match ends just before the closing
parenthesis. -/
theorem parseKeymapCallAt_tmpl (mode lhs rhs desc : List Char)
    (hm1 : mode ≠ []) (hm2 : ∀ c ∈ mode, isModeChar c = true)
    (hl1 : lhs ≠ []) (hl2 : ∀ c ∈ lhs, isQuote c = false)
    (hr1 : rhs ≠ []) (hr2 : ∀ c ∈ rhs, isQuote c = false)
    (hd3 : ∀ c ∈ desc, (c = '\x7d') = false) :
    parseKeymapCallAt
      ("vim.keymap.set".data ++ '(' :: '"' ::
        (mode ++ '"' :: ',' :: ' ' :: '"' ::
          (lhs ++ '"' :: ',' :: ' ' :: '"' ::
            (rhs ++ '"' :: ',' :: ' ' :: '\x7b' ::
              ((" desc = \"".data ++ desc ++ ['"', ' ']) ++ '\x7d' :: [')'])))))
      = some ((mode, lhs, rhs, some (" desc = \"".data ++ desc ++ ['"', ' '])), [')']) := by
  have hl2b : ∀ c ∈ lhs, (!isQuote c) = true := fun c hc => by rw [hl2 c hc]; rfl
  have hr2b : ∀ c ∈ rhs, (!isQuote c) = true := fun c hc => by rw [hr2 c hc]; rfl
  have hlitA : ((" desc = \"".data).all fun c => !(c = '\x7d')) = true := by decide
  have hlitB : (['"', ' '].all fun c => !(c = '\x7d')) = true := by decide
  have hOPTS : ∀ c ∈ (" desc = \"".data ++ desc ++ ['"', ' ']), (!(c = '\x7d')) = true := by
    intro c hc
    rcases List.mem_append.mp hc with hc1 | hc2
    · rcases List.mem_append.mp hc1 with hc3 | hc4
      · exact List.all_eq_true.mp hlitA c hc3
      · simp [hd3 c hc4]
    · exact List.all_eq_true.mp hlitB c hc2
  unfold parseKeymapCallAt
  rw [expectStr_append]
  simp only [Option.some_bind]
  rw [skipWs_nows (show isWsRe '(' = false from rfl)]
  rw [expectChar_cons]
  simp only [Option.some_bind]
  rw [skipWs_nows (show isWsRe '"' = false from rfl)]
  rw [quotedTok_exact isModeChar mode _ '"' '"' hm2 hm1 rfl rfl rfl]
  simp only [Option.some_bind]
  rw [skipWs_nows (show isWsRe ',' = false from rfl)]
  rw [expectChar_cons]
  simp only [Option.some_bind]
  rw [skipWs_ws (show isWsRe ' ' = true from rfl)]
  rw [skipWs_nows (show isWsRe '"' = false from rfl)]
  rw [quotedTok_exact _ lhs _ '"' '"' hl2b hl1 rfl rfl rfl]
  simp only [Option.some_bind]
  rw [skipWs_nows (show isWsRe ',' = false from rfl)]
  rw [expectChar_cons]
  simp only [Option.some_bind]
  rw [skipWs_ws (show isWsRe ' ' = true from rfl)]
  rw [skipWs_nows (show isWsRe '"' = false from rfl)]
  unfold parseRhs
  rw [quotedTok_exact _ rhs _ '"' '"' hr2b hr1 rfl rfl rfl]
  simp only [Option.some_bind]
  rw [skipWs_nows (show isWsRe ',' = false from rfl)]
  unfold parseOptsGroup
  rw [expectChar_cons]
  simp only [Option.some_bind]
  rw [skipWs_ws (show isWsRe ' ' = true from rfl)]
  rw [skipWs_nows (show isWsRe '\x7b' = false from rfl)]
  rw [expectChar_cons]
  simp only [Option.some_bind]
  rw [takeWhile_all _ '\x7d' [')'] hOPTS (by decide)]
  rw [dropWhile_all _ '\x7d' [')'] hOPTS (by decide)]

/-- String concatenation concatenates the underlying character lists. -/
theorem strDataApp (a b : String) : (a ++ b).data = a.data ++ b.data := rfl

/-- The keymap-call pattern never matches at or after the closing
parenthesis left over from the template, for any remaining fuel. -/
theorem scanMatches_rparen (att : List Char → Option
      ((List Char × List Char × List Char × Option (List Char)) × List Char))
    (h1 : att [')'] = none) (h0 : att [] = none) (f : Nat) :
    scanMatches att f [')'] = [] := by
  cases f with
  | zero => rfl
  | succ f =>
    show scanMatchesStep att (scanMatches att f) [')'] = []
    unfold scanMatchesStep
    rw [h1]
    exact scanMatches_nil att h0 f

/-- The description pattern finds exactly the desc literal inside the
options group scraped from the template. -/
theorem descScan_tmpl (desc : List Char) (hne : desc ≠ [])
    (hq : ∀ c ∈ desc, isQuote c = false) :
    scanFirst descPatAt
      ((" desc = \"".data ++ desc ++ ['"', ' ']).length + 1)
      (" desc = \"".data ++ desc ++ ['"', ' ']) = some desc := by
  have hq2 : ∀ c ∈ desc, (!isQuote c) = true := fun c hc => by rw [hq c hc]; rfl
  have hOc : (" desc = \"".data ++ desc ++ ['"', ' '])
      = ' ' :: ("desc = \"".data ++ (desc ++ ['"', ' '])) := by
    simp only [List.append_assoc]
    rfl
  have h0 : descPatAt (' ' :: ("desc = \"".data ++ (desc ++ ['"', ' ']))) = none := rfl
  have hdesc : descPatAt ("desc = \"".data ++ (desc ++ ['"', ' '])) = some desc := by
    unfold descPatAt
    rw [show ("desc = \"".data ++ (desc ++ ['"', ' ']))
        = "desc".data ++ (' ' :: '=' :: ' ' :: '"' :: (desc ++ ['"', ' '])) from rfl]
    rw [expectStr_append]
    simp only [Option.some_bind]
    rw [skipWs_ws (show isWsRe ' ' = true from rfl)]
    rw [skipWs_nows (show isWsRe '=' = false from rfl)]
    rw [expectChar_cons]
    simp only [Option.some_bind]
    rw [skipWs_ws (show isWsRe ' ' = true from rfl)]
    rw [skipWs_nows (show isWsRe '"' = false from rfl)]
    rw [quotedTok_exact _ desc _ '"' '"' hq2 hne rfl rfl rfl]
    rfl
  rw [hOc]
  rw [List.length_cons]
  rw [scanFirst_skip _ _ _ _ h0]
  rw [scanFirst_found _ _ _ _ hdesc]

/-- C1 as amended: when the input text is the well-formed call itself
(string-literal mode, lhs, rhs, desc entry in the trailing options
table; the literals quote-free, bracket-free and, for desc, brace-free),
extraction appends exactly the keymap with those four literals. -/
theorem c1_wellformed_call_extracted (cfg : NvimConfig) (source mode lhs rhs desc : String)
    (hm : mode.data ≠ [] ∧ ∀ c ∈ mode.data, isModeChar c = true)
    (hl : lhs.data ≠ [] ∧ ∀ c ∈ lhs.data, isQuote c = false ∧ c ≠ '[')
    (hr : rhs.data ≠ [] ∧ ∀ c ∈ rhs.data, isQuote c = false ∧ c ≠ '[')
    (hd : desc.data ≠ [] ∧ ∀ c ∈ desc.data, isQuote c = false ∧ c ≠ '\x7d' ∧ c ≠ '[') :
    extractKeymapsFromLua cfg
        ("vim.keymap.set(\"" ++ mode ++ "\", \"" ++ lhs ++ "\", \"" ++ rhs
          ++ "\", \x7b desc = \"" ++ desc ++ "\" \x7d)") source
      = { cfg with Keymaps := cfg.Keymaps ++
            [{ Mode := mode, Lhs := lhs, Rhs := rhs, Description := desc,
               Source := source }] } := by
  obtain ⟨hm1, hm2⟩ := hm
  obtain ⟨hl1, hl2⟩ := hl
  obtain ⟨hr1, hr2⟩ := hr
  obtain ⟨hd1, hd2⟩ := hd
  have htd : ("vim.keymap.set(\"" ++ mode ++ "\", \"" ++ lhs ++ "\", \"" ++ rhs
        ++ "\", \x7b desc = \"" ++ desc ++ "\" \x7d)").data
      = "vim.keymap.set".data ++ '(' :: '"' ::
          (mode.data ++ '"' :: ',' :: ' ' :: '"' ::
            (lhs.data ++ '"' :: ',' :: ' ' :: '"' ::
              (rhs.data ++ '"' :: ',' :: ' ' :: '\x7b' ::
                ((" desc = \"".data ++ desc.data ++ ['"', ' ']) ++ '\x7d' :: [')'])))) := by
    simp only [strDataApp, List.append_assoc]
    rfl
  have hpipe := parseKeymapCallAt_tmpl mode.data lhs.data rhs.data desc.data hm1 hm2
    hl1 (fun c hc => (hl2 c hc).1) hr1 (fun c hc => (hr2 c hc).1)
    (fun c hc => by simp [(hd2 c hc).2.1])
  have hbr : '[' ∉ ("vim.keymap.set".data ++ '(' :: '"' ::
      (mode.data ++ '"' :: ',' :: ' ' :: '"' ::
        (lhs.data ++ '"' :: ',' :: ' ' :: '"' ::
          (rhs.data ++ '"' :: ',' :: ' ' :: '\x7b' ::
            ((" desc = \"".data ++ desc.data ++ ['"', ' ']) ++ '\x7d' :: [')']))))) := by
    intro hmem
    have hlit1 : '[' ∉ "vim.keymap.set".data := by decide
    have hlit2 : '[' ∉ " desc = \"".data := by decide
    rcases List.mem_append.mp hmem with h | h
    · exact hlit1 h
    · rcases h with _ | ⟨_, h⟩
      rcases h with _ | ⟨_, h⟩
      rcases List.mem_append.mp h with h | h
      · exact absurd (hm2 '[' h) (by decide)
      · rcases h with _ | ⟨_, h⟩
        rcases h with _ | ⟨_, h⟩
        rcases h with _ | ⟨_, h⟩
        rcases h with _ | ⟨_, h⟩
        rcases List.mem_append.mp h with h | h
        · exact absurd ((hl2 '[' h).2) (by simp)
        · rcases h with _ | ⟨_, h⟩
          rcases h with _ | ⟨_, h⟩
          rcases h with _ | ⟨_, h⟩
          rcases h with _ | ⟨_, h⟩
          rcases List.mem_append.mp h with h | h
          · exact absurd ((hr2 '[' h).2) (by simp)
          · rcases h with _ | ⟨_, h⟩
            rcases h with _ | ⟨_, h⟩
            rcases h with _ | ⟨_, h⟩
            rcases h with _ | ⟨_, h⟩
            rcases List.mem_append.mp h with h | h
            · rcases List.mem_append.mp h with h | h
              · rcases List.mem_append.mp h with h | h
                · exact hlit2 h
                · exact absurd ((hd2 '[' h).2.2) (by simp)
              · rcases h with _ | ⟨_, h⟩
                rcases h with _ | ⟨_, h⟩
                exact absurd h (List.not_mem_nil _)
            · rcases h with _ | ⟨_, h⟩
              rcases h with _ | ⟨_, h⟩
              exact absurd h (List.not_mem_nil _)
  have hOe : ((" desc = \"".data ++ desc.data ++ ['"', ' '])).isEmpty = false := rfl
  unfold extractKeymapsFromLua
  rw [htd]
  rw [scanMatches_found _ _ _ _ _ hpipe]
  rw [scanMatches_rparen parseKeymapCallAt rfl rfl]
  rw [scanMatches_cmd_empty _ _ hbr]
  simp only [List.map_cons, List.map_nil, List.append_nil]
  have hkm : kmOfGroups source
      (mode.data, lhs.data, rhs.data, some (" desc = \"".data ++ desc.data ++ ['"', ' ']))
      = { Mode := mode, Lhs := lhs, Rhs := rhs, Description := desc, Source := source } := by
    simp only [kmOfGroups, hOe, Bool.false_eq_true, if_false,
      descScan_tmpl desc.data hd1 (fun c hc => (hd2 c hc).1)]
  rw [hkm]

/-- Witness for the amended C1 at the claim's concrete call. -/
theorem c1_wellformed_call_extracted_witness :
    extractKeymapsFromLua (nvimDefault "/x")
        ("vim.keymap.set(\"" ++ "n" ++ "\", \"" ++ "<leader>w" ++ "\", \"" ++ ":w<CR>"
          ++ "\", \x7b desc = \"" ++ "Save file" ++ "\" \x7d)") "init.lua"
      = { nvimDefault "/x" with Keymaps :=
            (nvimDefault "/x").Keymaps ++
            [{ Mode := "n", Lhs := "<leader>w", Rhs := ":w<CR>",
               Description := "Save file", Source := "init.lua" }] } :=
  c1_wellformed_call_extracted (nvimDefault "/x") "init.lua" "n" "<leader>w" ":w<CR>"
    "Save file" ⟨by decide, by decide⟩ ⟨by decide, by decide⟩ ⟨by decide, by decide⟩
    ⟨by decide, by decide⟩

/-- C1 counterexample: `c1interference` contains the claim's well-formed
call verbatim, yet extraction produces no record with its fields — the
preceding unterminated call swallows it inside one regex match. -/
theorem c1_containing_text_counterexample :
    containsSub
        ("vim.keymap.set(\"n\", \"<leader>w\", \":w<CR>\", \x7b desc = \"Save file\" \x7d)").data
        c1interference.data = true
    ∧ c1expected ∉ (extractKeymapsFromLua (nvimDefault "p") c1interference "init.lua").Keymaps := by
  refine ⟨by decide, by decide⟩
